import Mathlib

set_option linter.unusedVariables false

/-! Verification development for the db-yaml document store.

The repository is a pluggable document store with a cursor pipeline.
This file shallowly embeds the parts the verified properties touch:

* a value model of the JavaScript data the store manipulates (JSValue),
  with the loose-equality, truthiness and string/number coercions the
  source relies on;
* the legacy core cursor of src/core/cursor.js (namespace Core):
  parseConditoin, keys, toArray, count and the offset/limit filters;
* the stage-chain cursor of src/lib/core/cursor.js (namespace Lib):
  Source, Condition, Projection, Sort, Offset and Limit stages, the
  toArray drain helper and the Cursor terminal operations, as a fuelled
  interpreter that also records the index/read storage operations;
* the update-operator compiler of update.js (namespace Upd);
* the in-memory index of memory.js (namespace Mem).

Asynchrony in the source is plain continuation passing with no interleaving,
so callbacks are modelled by returning the value the callback receives.
Callback-visible state mutation is modelled by returning the updated state.
JavaScript numbers are modelled as rationals; NaN and the infinities do not
arise in the verified properties and are left out of the model. -/

/-! ## JavaScript values -/

inductive JSValue : Type where
  | null : JSValue
  | undef : JSValue
  | bool : Bool → JSValue
  | num : ℚ → JSValue
  | str : String → JSValue
  | arr : List JSValue → JSValue
  | obj : List (String × JSValue) → JSValue

/-- Truthiness of a JavaScript value: false, 0, the empty string, null and
undefined are falsy; every object and array is truthy. -/
def jsTruthy : JSValue → Bool
  | .null => false
  | .undef => false
  | .bool b => b
  | .num q => !(q == 0)
  | .str s => !(s == "")
  | .arr _ => true
  | .obj _ => true

/-- Integer-exact printing of a model number. The JavaScript engine prints
numbers in decimal; the development only ever prints integral numbers, on
which this agrees with the engine. -/
def ratToString (q : ℚ) : String :=
  if q.den = 1 then toString q.num else toString q.num ++ "/" ++ toString q.den

mutual

/-- JavaScript ToString: the string conversion used by error messages and by
number parsing of non-string values. Arrays join their elements with commas,
null and undefined elements joining as the empty string; plain objects print
as the usual object tag. -/
def jsToString : JSValue → String
  | .null => "null"
  | .undef => "undefined"
  | .bool b => if b then "true" else "false"
  | .num q => ratToString q
  | .str s => s
  | .arr l => arrToString l
  | .obj _ => "[object Object]"

def arrToString : List JSValue → String
  | [] => ""
  | [x] => elemToString x
  | x :: xs => elemToString x ++ "," ++ arrToString xs

def elemToString : JSValue → String
  | .null => ""
  | .undef => ""
  | v => jsToString v

end

/-- Reading a property: documents are objects, and a missing field reads as
undefined. Property reads on non-objects in this code base only occur on
documents, so other values read as undefined. -/
def jsGet (v : JSValue) (k : String) : JSValue :=
  match v with
  | .obj fields =>
    match fields.lookup k with
    | some x => x
    | none => .undef
  | _ => .undef

def setField : List (String × JSValue) → String → JSValue → List (String × JSValue)
  | [], k, v => [(k, v)]
  | (k0, v0) :: rest, k, v =>
    if k0 = k then (k0, v) :: rest else (k0, v0) :: setField rest k v

/-- Property assignment. Overwriting keeps the field position, as JavaScript
objects do; assignment to a non-object value is a silent no-op in the
non-strict code of this repository. -/
def jsSet (o : JSValue) (k : String) (v : JSValue) : JSValue :=
  match o with
  | .obj fields => .obj (setField fields k v)
  | x => x

def delField : List (String × JSValue) → String → List (String × JSValue)
  | [], _ => []
  | (k0, v0) :: rest, k =>
    if k0 = k then rest else (k0, v0) :: delField rest k

/-- The delete operator on a document field; deleting an absent field is a
no-op. -/
def jsDel (o : JSValue) (k : String) : JSValue :=
  match o with
  | .obj fields => .obj (delField fields k)
  | x => x

/-- The enumerable own properties a for-in loop visits: the fields of an
object, the indexed elements of an array, nothing on primitives. -/
def fieldsOf : JSValue → List (String × JSValue)
  | .obj fields => fields
  | .arr l => l.enum.map (fun p => (toString p.1, p.2))
  | _ => []

def isSpaceChar (c : Char) : Bool :=
  c == ' ' || c == '\t' || c == '\n' || c == '\r'

def takeDigits : List Char → List Char × List Char
  | [] => ([], [])
  | c :: cs =>
    if c.isDigit then
      let (d, r) := takeDigits cs
      (c :: d, r)
    else
      ([], c :: cs)

def digitsToNat (ds : List Char) : Nat :=
  ds.foldl (fun a c => a * 10 + (c.toNat - 48)) 0

/-- Longest decimal-literal prefix of a character sequence: an optional sign,
then digits with an optional fractional part; at least one digit must be
present. Returns the value and the unconsumed rest. Exponent suffixes never
occur in this development and are not modelled. -/
def parseDecCore (cs : List Char) : Option (ℚ × List Char) :=
  let signed : Bool × List Char :=
    match cs with
    | '-' :: r => (true, r)
    | '+' :: r => (false, r)
    | r => (false, r)
  let (ip, cs2) := takeDigits signed.2
  let withFrac : List Char × List Char :=
    match cs2 with
    | '.' :: r => takeDigits r
    | r => ([], r)
  let fp := withFrac.1
  let cs3 := withFrac.2
  if ip.isEmpty ∧ fp.isEmpty then none
  else
    let mag : ℚ := (digitsToNat ip : ℚ) + (digitsToNat fp : ℚ) / ((10 : ℚ) ^ fp.length)
    some (if signed.1 then -mag else mag, cs3)

/-- JavaScript parseFloat: the argument is converted to a string, leading
whitespace is skipped and the longest decimal prefix is taken; no parsable
prefix gives NaN, modelled as none. A number argument round-trips through
ToString, so it parses back to itself. -/
def parseFloatJS : JSValue → Option ℚ
  | .num q => some q
  | v => (parseDecCore ((jsToString v).toList.dropWhile isSpaceChar)).map Prod.fst

/-- JavaScript ToNumber on a string, as loose equality uses it: the trimmed
string must be a complete decimal literal, the empty string converting to 0;
anything else is NaN, modelled as none. -/
def toNumberStr (s : String) : Option ℚ :=
  let t := ((s.toList.dropWhile isSpaceChar).reverse.dropWhile isSpaceChar).reverse
  if t.isEmpty then some 0
  else
    match parseDecCore t with
    | some (q, []) => some q
    | _ => none

/-- Intermediate classification for loose equality: a numeric side, a string
side, or an object-like side (array or plain object). -/
inductive JPrim : Type where
  | n : ℚ → JPrim
  | s : String → JPrim
  | objLike : JSValue → JPrim

def numStrEq (q : ℚ) (s : String) : Bool :=
  match toNumberStr s with
  | some r => q == r
  | none => false

def looseCore : JPrim → JPrim → Bool
  | .n a, .n b => a == b
  | .s a, .s b => a == b
  | .n a, .s b => numStrEq a b
  | .s a, .n b => numStrEq b a
  | .objLike _, .objLike _ => false
  | .n a, .objLike o => numStrEq a (jsToString o)
  | .s a, .objLike o => a == jsToString o
  | .objLike o, .n b => numStrEq b (jsToString o)
  | .objLike o, .s b => b == jsToString o

def classify : JSValue → Option JPrim
  | .null => none
  | .undef => none
  | .bool b => some (.n (if b then 1 else 0))
  | .num q => some (.n q)
  | .str s => some (.s s)
  | v => some (.objLike v)

/-- JavaScript loose equality as the source uses it. null and undefined
equal each other and nothing else; booleans convert to numbers; a number
and a string compare through ToNumber; an object-like value against a
primitive compares through its string conversion. Two object-like values
compare by reference, and the pipeline only ever compares documents freshly
read from storage against condition literals, which never share a
reference, so that case is false. -/
def looseEq (a b : JSValue) : Bool :=
  match classify a, classify b with
  | none, none => true
  | none, _ => false
  | _, none => false
  | some x, some y => looseCore x y

/-- A condition argument as the cursor constructors receive it: either an
opaque predicate function or a data value. -/
inductive CondArg : Type where
  | func : (JSValue → Bool) → CondArg
  | val : JSValue → CondArg

def CondArg.truthy : CondArg → Bool
  | .func _ => true
  | .val v => jsTruthy v

/-- A projection argument: an opaque transform function or a data value. -/
inductive ProjArg : Type where
  | func : (JSValue → JSValue) → ProjArg
  | val : JSValue → ProjArg

def ProjArg.truthy : ProjArg → Bool
  | .func _ => true
  | .val v => jsTruthy v

/-- The abstract Storage Contract a cursor reads from: the identifier list
and per-identifier reads, each able to fail. The source calls the former
index (the legacy cursor calls it keys) and the latter read. Reading never
changes the store, so the store is a fixed value. -/
structure Store : Type where
  index : Except String (List String)
  read : String → Except String JSValue

/-! ## The legacy core cursor, src/core/cursor.js -/

namespace Core

/-- The condition compiler of src/core/cursor.js (its name is the spelling
the source uses). A function passes through unchanged. A falsy condition is
replaced by the empty map before the type check. A non-object value then
fails. An empty map compiles to the match-all predicate; a one-field map to
the single loose-equality test; a larger map to the conjunction of the
loose-equality tests over its declared fields. The source predicates take a
continuation and immediately call it with the boolean, so they are modelled
as plain boolean predicates. -/
def parseConditoin : CondArg → Except String (JSValue → Bool)
  | .func f => .ok f
  | .val v =>
    let c := if jsTruthy v then v else .obj []
    match c with
    | .num _ | .str _ | .bool _ => .error ("unknown condition: " ++ jsToString c)
    | c =>
      match fieldsOf c with
      | [] => .ok (fun _ => true)
      | [(key, val)] => .ok (fun item => looseEq (jsGet item key) val)
      | fields => .ok (fun item => fields.all (fun kv => looseEq (jsGet item kv.1) kv.2))

/-- The legacy cursor state: the compiled condition, the two memo fields and
the three optional pagination filters. -/
structure OldCursor : Type where
  condition : JSValue → Bool
  keysMemo : Option (List String) := none
  valuesMemo : Option (List JSValue) := none
  sortFilter : Option (List JSValue → List JSValue) := none
  offsetFilter : Option (List JSValue → List JSValue) := none
  limitFilter : Option (List JSValue → List JSValue) := none

/-- find of src/core/cursor.js compiles the condition and builds a cursor;
a compile failure is thrown to the caller. -/
def find (c : CondArg) : Except String OldCursor :=
  (parseConditoin c).map (fun f => { condition := f })

/-- keys: memoized identifier listing. On success the list is memoized; on
failure the callback receives the error and the memo stays unset. -/
def OldCursor.keys (c : OldCursor) (st : Store) : Except String (List String) × OldCursor :=
  match c.keysMemo with
  | some l => (.ok l, c)
  | none =>
    match st.index with
    | .error e => (.error e, c)
    | .ok l => (.ok l, { c with keysMemo := some l })

/-- The sequential read loop inside toArray: read each identifier in order,
keep the items the condition accepts, stop at the first read error keeping
what was collected so far. The loop is the eachSeries helper of the missing
utils module; its standard behavior, iterate in order and finish early with
the first error, is what the spec describes for per-item streaming errors. -/
def readLoop (st : Store) (cond : JSValue → Bool) : List String → Option String × List JSValue
  | [] => (none, [])
  | id :: rest =>
    match st.read id with
    | .error e => (some e, [])
    | .ok item =>
      let tail := readLoop st cond rest
      (tail.1, if cond item then item :: tail.2 else tail.2)

/-- The end of the toArray loop applies the sort, offset and limit filters
in that fixed order, whether or not the loop stopped on an error. -/
def applyFilters (c : OldCursor) (buf : List JSValue) : List JSValue :=
  let b1 := match c.sortFilter with | some f => f buf | none => buf
  let b2 := match c.offsetFilter with | some f => f b1 | none => b1
  match c.limitFilter with | some f => f b2 | none => b2

/-- toArray of src/core/cursor.js. The callback receives the pair of the
error slot and the list slot exactly as the source passes them: on the memo
path the memoized list with no error; otherwise the filtered buffer is
always memoized and always handed to the callback, together with the read
error when the loop stopped early. -/
def OldCursor.toArray (c : OldCursor) (st : Store) :
    (Option String × Option (List JSValue)) × OldCursor :=
  match c.valuesMemo with
  | some l => ((none, some l), c)
  | none =>
    let keyed := c.keys st
    match keyed.1 with
    | .error e => ((some e, none), keyed.2)
    | .ok ids =>
      let looped := readLoop st keyed.2.condition ids
      let buf := applyFilters keyed.2 looped.2
      ((looped.1, some buf), { keyed.2 with valuesMemo := some buf })

/-- count of src/core/cursor.js: the length of the identifier list, with no
reference to the condition or to toArray. -/
def OldCursor.count (c : OldCursor) (st : Store) : Except String Nat × OldCursor :=
  let keyed := c.keys st
  match keyed.1 with
  | .error e => (.error e, keyed.2)
  | .ok l => (.ok l.length, keyed.2)

/-- offset of src/core/cursor.js: installs the splice-from filter. -/
def OldCursor.offset (c : OldCursor) (n : Nat) : OldCursor :=
  { c with offsetFilter := some (fun l => l.drop n) }

/-- limit of src/core/cursor.js: installs the splice-prefix filter. -/
def OldCursor.limit (c : OldCursor) (n : Nat) : OldCursor :=
  { c with limitFilter := some (fun l => l.take n) }

end Core

/-! ## The update-operator compiler, update.js -/

namespace Upd

/-- An update argument: an opaque mutator function or a data value. -/
inductive UpdateArg : Type where
  | func : (JSValue → JSValue) → UpdateArg
  | val : JSValue → UpdateArg

def updateOperators : List String :=
  ["$set", "$unset", "$rename", "$push", "$pull", "$inc"]

/-- The standard ES5 properties of Object.prototype. The validation of
update.js reads ope[key] on a plain object literal, and JavaScript property
lookup falls through to the prototype chain, so these keys also read as
truthy function values. -/
def objectProtoProps : List String :=
  ["constructor", "hasOwnProperty", "isPrototypeOf", "propertyIsEnumerable",
   "toLocaleString", "toString", "valueOf"]

/-- Truthiness of ope[key]: the six operator entries hold 1, and every
Object.prototype method is a truthy function. -/
def opeLookupTruthy (key : String) : Bool :=
  updateOperators.contains key || objectProtoProps.contains key

/-- The typeof test the validation applies to each operator value: typeof
yields the string object for plain objects, arrays and also null. -/
def jsTypeofObject : JSValue → Bool
  | .null => true
  | .arr _ => true
  | .obj _ => true
  | _ => false

def parseFloatOr0 (v : JSValue) : ℚ :=
  match parseFloatJS v with
  | some q => q
  | none => 0

/-- One step of the $inc loop: parse the current value and the amount, each
falling back to 0 exactly as parseFloat(x) or-else 0 does, and store the
sum. -/
def incStep (it : JSValue) (kv : String × JSValue) : JSValue :=
  jsSet it kv.1 (.num (parseFloatOr0 (jsGet it kv.1) + parseFloatOr0 kv.2))

/-- The applied update function built by update.js, acting on one document.
A falsy document passes through untouched. The six operators apply in the
fixed source order: $set, $unset, $rename, $push, $pull, $inc, each guarded
by the truthiness of its entry in the specification and iterating the
entries of that entry. -/
def applyUpdate (u : JSValue) (item0 : JSValue) : JSValue :=
  if jsTruthy item0 = false then item0
  else
    let i1 :=
      if jsTruthy (jsGet u "$set") then
        (fieldsOf (jsGet u "$set")).foldl (fun it kv => jsSet it kv.1 kv.2) item0
      else item0
    let i2 :=
      if jsTruthy (jsGet u "$unset") then
        (fieldsOf (jsGet u "$unset")).foldl (fun it kv => jsDel it kv.1) i1
      else i1
    let i3 :=
      if jsTruthy (jsGet u "$rename") then
        (fieldsOf (jsGet u "$rename")).foldl
          (fun it kv => jsDel (jsSet it (jsToString kv.2) (jsGet it kv.1)) kv.1) i2
      else i2
    let i4 :=
      if jsTruthy (jsGet u "$push") then
        (fieldsOf (jsGet u "$push")).foldl
          (fun it kv =>
            let base : List JSValue :=
              match jsGet it kv.1 with
              | .arr l => l
              | .undef => []
              | old => [old]
            jsSet it kv.1 (.arr (base ++ [kv.2]))) i3
      else i3
    let i5 :=
      if jsTruthy (jsGet u "$pull") then
        (fieldsOf (jsGet u "$pull")).foldl
          (fun it kv =>
            match jsGet it kv.1 with
            | .arr l => jsSet it kv.1 (.arr (l.filter (fun t => !(looseEq kv.2 t))))
            | old => if looseEq kv.2 old then jsSet it kv.1 (.arr []) else it) i4
      else i4
    if jsTruthy (jsGet u "$inc") then
      (fieldsOf (jsGet u "$inc")).foldl incStep i5
    else i5

/-- The first specification key the validation loop rejects: one whose ope
lookup is falsy or whose value does not have typeof object. -/
def firstInvalidKey (fields : List (String × JSValue)) : Option String :=
  (fields.find? (fun kv => !(opeLookupTruthy kv.1 && jsTypeofObject kv.2))).map (fun kv => kv.1)

/-- exports.update of update.js. A function passes through. A falsy
specification is replaced by the empty map. The source then tests the
negation of Object.keys of the specification, but Object.keys returns an
array and arrays are always truthy, so the null (no-op) return never fires;
the branch is kept here as written. A non-object specification then fails;
otherwise each top-level key must pass the ope lookup and the typeof object
test, the first offender failing the compile, and the compiled mutator is
returned. -/
def update : UpdateArg → Except String (Option (JSValue → JSValue))
  | .func f => .ok (some f)
  | .val v =>
    let u := if jsTruthy v then v else .obj []
    if jsTruthy (.arr ((fieldsOf u).map (fun kv => .str kv.1))) = false then .ok none
    else
      match u with
      | .num _ | .str _ | .bool _ => .error ("invalid update: " ++ jsToString u)
      | u =>
        match firstInvalidKey (fieldsOf u) with
        | some k => .error ("invalid update operator: " ++ k)
        | none => .ok (some (applyUpdate u))

/-- Whether a specification compiles at all. -/
def compiles (a : UpdateArg) : Bool :=
  match update a with
  | .ok _ => true
  | .error _ => false

end Upd

/-! ## The in-memory index, memory.js (inside src/lib/webapi/webapi.js) -/

namespace Mem

/-- index of the memory storage mixin: map unescape over the stored keys,
then drop every result that is an Error instance, and hand the survivors to
the callback. unescape is the storage-specific key decoder, abstract here;
a failed decode is an Error value in the mapped list. -/
def index (storeKeys : List String) (unescape : String → Except String String) :
    List (Except String String) :=
  (storeKeys.map unescape).filter (fun v =>
    match v with
    | .error _ => false
    | .ok _ => true)

end Mem

/-! ## The stage-chain cursor, src/lib/core/cursor.js -/

namespace Lib

/-- A storage operation the pipeline performs, recorded in order. -/
inductive Op : Type where
  | index : Op
  | read : String → Op

/-- The compiled condition a Condition stage holds: the compiled predicate,
or a non-function value, which the stage rejects at pull time. -/
inductive CondVal : Type where
  | fn : (JSValue → Bool) → CondVal
  | notFn : JSValue → CondVal

/-- The compiled projection a Projection stage holds. -/
inductive ProjVal : Type where
  | fn : (JSValue → JSValue) → ProjVal
  | notFn : JSValue → ProjVal

/-- The decorator chain of stages with each stage's mutable state inline:
src is the Source leaf with its cached identifier list; cond, proj wrap a
stage; sort holds the comparator, its buffered sorted list once filled and
the order-compile error slot; offset holds the skip count and the ready
flag; limit holds the limit and the remaining count. -/
inductive Stage : Type where
  | src : Option (List String) → Stage
  | cond : CondVal → Stage → Stage
  | proj : ProjVal → Stage → Stage
  | sort : (JSValue → JSValue → Int) → Option (List JSValue) → Option String → Stage → Stage
  | offset : Int → Bool → Stage → Stage
  | limit : Int → Int → Stage → Stage

/-- Array.prototype.sort with a comparator: some order consistent with the
comparator; ES5 leaves stability unspecified and nothing here depends on
the algorithm. -/
def jsSortList (cmp : JSValue → JSValue → Int) (l : List JSValue) : List JSValue :=
  l.mergeSort (fun a b => cmp a b ≤ 0)

/-- What one pull delivers to its callback: an error, or the item; the
source signals end-of-stream by calling the callback with no item, that is
with undefined, and consumers test the item for truthiness. -/
abbrev Res : Type := Except String JSValue

mutual

/-- nextObject of each stage, with fuel for the pull loops; none means the
fuel ran out, never that the source does. Returns what the callback
receives, the updated stage chain and the storage operations performed.

Source with no cached list calls index once, caches, and pulls again; with
a cached list it shifts the next identifier and reads it, or signals EOF.
Condition rejects a non-function predicate, otherwise pulls in a loop
until a match, EOF or an error. Projection transforms one pulled item.
Sort reports its latched error, serves from its buffer once filled, and on
the first pull drains its wrapped stage, sorts and serves. Offset passes
through once ready or when the count is not positive, otherwise runs the
skip loop. Limit decrements its remaining count and either pulls or
signals EOF without touching its wrapped stage. -/
def nextN : Nat → Store → Stage → Option (Res × Stage × List Op)
  | 0, _, _ => none
  | Nat.succ f, st, s =>
    match s with
    | .src none =>
      match st.index with
      | .error e => some (.error e, .src none, [.index])
      | .ok l => (nextN f st (.src (some l))).map (fun r => (r.1, r.2.1, .index :: r.2.2))
    | .src (some []) => some (.ok .undef, .src (some []), [])
    | .src (some (id :: rest)) =>
      match st.read id with
      | .error e => some (.error e, .src (some rest), [.read id])
      | .ok item => some (.ok item, .src (some rest), [.read id])
    | .cond (.notFn v) s0 =>
      some (.error ("invalid condition: " ++ jsToString v), .cond (.notFn v) s0, [])
    | .cond (.fn p) s0 =>
      match nextN f st s0 with
      | none => none
      | some (.error e, s1, ops) => some (.error e, .cond (.fn p) s1, ops)
      | some (.ok item, s1, ops) =>
        if jsTruthy item = false then some (.ok .undef, .cond (.fn p) s1, ops)
        else if p item then some (.ok item, .cond (.fn p) s1, ops)
        else (nextN f st (.cond (.fn p) s1)).map (fun r => (r.1, r.2.1, ops ++ r.2.2))
    | .proj (.notFn v) s0 =>
      some (.error ("invalid projection: " ++ jsToString v), .proj (.notFn v) s0, [])
    | .proj (.fn p) s0 =>
      match nextN f st s0 with
      | none => none
      | some (.error e, s1, ops) => some (.error e, .proj (.fn p) s1, ops)
      | some (.ok item, s1, ops) =>
        if jsTruthy item = false then some (.ok .undef, .proj (.fn p) s1, ops)
        else some (.ok (p item), .proj (.fn p) s1, ops)
    | .sort cmp buf errOpt s0 =>
      match errOpt with
      | some e => some (.error e, .sort cmp buf (some e) s0, [])
      | none =>
        match buf with
        | some [] => some (.ok .undef, .sort cmp (some []) none s0, [])
        | some (x :: xs) => some (.ok x, .sort cmp (some xs) none s0, [])
        | none =>
          match drainN f st s0 with
          | none => none
          | some (.error e, s1, ops) => some (.error e, .sort cmp none none s1, ops)
          | some (.ok l, s1, ops) =>
            match jsSortList cmp l with
            | [] => some (.ok .undef, .sort cmp (some []) none s1, ops)
            | x :: xs => some (.ok x, .sort cmp (some xs) none s1, ops)
    | .offset n ready s0 =>
      if ready || n ≤ 0 then
        (nextN f st s0).map (fun r => (r.1, .offset n ready r.2.1, r.2.2))
      else
        (skipN f st n s0).map (fun r => (r.1, .offset n r.2.2.2 r.2.1, r.2.2.1))
    | .limit lim rest s0 =>
      if rest > 0 then
        (nextN f st s0).map (fun r => (r.1, .limit lim (rest - 1) r.2.1, r.2.2))
      else some (.ok .undef, .limit lim (rest - 1) s0, [])

/-- The iterator loop inside Offset.nextObject: pull and discard while the
local rest counter stays positive; an error or EOF ends the call without
setting ready; after the last skipped item the ready flag is set (the
boolean in the result) and one more pull supplies the caller. -/
def skipN : Nat → Store → Int → Stage → Option (Res × Stage × List Op × Bool)
  | 0, _, _, _ => none
  | Nat.succ f, st, rest, s0 =>
    match nextN f st s0 with
    | none => none
    | some (.error e, s1, ops) => some (.error e, s1, ops, false)
    | some (.ok item, s1, ops) =>
      if jsTruthy item = false then some (.ok .undef, s1, ops, false)
      else if rest - 1 > 0 then
        (skipN f st (rest - 1) s1).map (fun r => (r.1, r.2.1, ops ++ r.2.2.1, r.2.2.2))
      else
        match nextN f st s1 with
        | none => none
        | some (r, s2, ops2) => some (r, s2, ops ++ ops2, true)

/-- The module-level toArray helper: pull items into a buffer until EOF,
handing the caller only the error when a pull fails, so a failed drain
discards everything collected so far. -/
def drainN : Nat → Store → Stage → Option (Except String (List JSValue) × Stage × List Op)
  | 0, _, _ => none
  | Nat.succ f, st, s0 =>
    match nextN f st s0 with
    | none => none
    | some (.error e, s1, ops) => some (.error e, s1, ops)
    | some (.ok item, s1, ops) =>
      if jsTruthy item = false then some (.ok [], s1, ops)
      else
        match drainN f st s1 with
        | none => none
        | some (.error e, s2, ops2) => some (.error e, s2, ops ++ ops2)
        | some (.ok l, s2, ops2) => some (.ok (item :: l), s2, ops ++ ops2)

end

/-- The Cursor state: the head of the stage chain, the latched construction
error and the two memo slots. The source also keeps the original Source
object in _source for the identity test inside count; stages only ever
wrap, so that test is the sourceIsOriginal shape test below. -/
structure Cursor : Type where
  source : Stage
  _error : Option String := none
  _index : Option (List String) := none
  _toArray : Option (List JSValue) := none

/-- Modelled from the spec: the predicate compiler obop.where that the lib
cursor constructor calls is not among the repository files under src. Per
the spec, a function is returned unchanged; a null or absent condition
compiles to the always-true predicate; a map compiles to the conjunction of
loose-equality tests over its declared fields (the empty map matching
everything); any other type fails with InvalidCondition carrying the
offending value. -/
def whereSpec : CondArg → Except String (JSValue → Bool)
  | .func f => .ok f
  | .val (.obj fields) => .ok (fun item => fields.all (fun kv => looseEq (jsGet item kv.1) kv.2))
  | .val .null => .ok (fun _ => true)
  | .val .undef => .ok (fun _ => true)
  | .val v => .error ("invalid condition: " ++ jsToString v)

/-- Modelled from the spec: the projection compiler obop.view is likewise
not among the files under src. A function passes through; a null or absent
projection is the identity; a map retains the listed fields; any other
type fails with InvalidProjection. -/
def viewSpec : ProjArg → Except String (JSValue → JSValue)
  | .func f => .ok f
  | .val (.obj fields) =>
    .ok (fun item => .obj ((fieldsOf item).filter (fun kv => (fields.lookup kv.1).isSome)))
  | .val .null => .ok (fun item => item)
  | .val .undef => .ok (fun item => item)
  | .val v => .error ("invalid projection: " ++ jsToString v)

/-- The Cursor constructor. The chain starts at a fresh Source. A truthy
condition is compiled; a compile failure latches _error and leaves the
chain alone, success wraps the chain in a Condition stage. A truthy
projection is then handled the same way, a failure overwriting _error. A
falsy condition or projection is skipped entirely. -/
def mkCursor (condition : CondArg) (projection : ProjArg) : Cursor :=
  let base : Cursor := { source := .src none }
  let c1 :=
    if condition.truthy then
      match whereSpec condition with
      | .error e => { base with _error := some e }
      | .ok f => { base with source := .cond (.fn f) base.source }
    else base
  if projection.truthy then
    match viewSpec projection with
    | .error e => { c1 with _error := some e }
    | .ok f => { c1 with source := .proj (.fn f) c1.source }
  else c1

/-- The identity test this.source === this._source inside count: _source is
the Source object built by the constructor and stages only ever wrap the
chain, so the head equals _source exactly when it is still the Source
leaf. -/
def sourceIsOriginal : Stage → Bool
  | .src _ => true
  | _ => false

/-- Cursor.prototype.index: short-circuit on the latched error; otherwise
serve the memo, or call the collection index once, memoize and serve. The
source clones the served list; lists are values here, so the clone is
invisible. -/
def Cursor.index (c : Cursor) (st : Store) :
    Except String (List String) × Cursor × List Op :=
  match c._error with
  | some e => (.error e, c, [])
  | none =>
    match c._index with
    | some l => (.ok l, c, [])
    | none =>
      match st.index with
      | .error e => (.error e, c, [.index])
      | .ok l => (.ok l, { c with _index := some l }, [.index])

/-- Cursor.prototype.toArray: short-circuit on the latched error; otherwise
serve the memo without touching the stage chain, or drain the chain,
memoizing only a successful result. -/
def Cursor.toArray (fuel : Nat) (c : Cursor) (st : Store) :
    Option (Except String (List JSValue) × Cursor × List Op) :=
  match c._error with
  | some e => some (.error e, c, [])
  | none =>
    match c._toArray with
    | some l => some (.ok l, c, [])
    | none =>
      match drainN fuel st c.source with
      | none => none
      | some (.error e, s1, ops) => some (.error e, { c with source := s1 }, ops)
      | some (.ok l, s1, ops) => some (.ok l, { c with source := s1, _toArray := some l }, ops)

/-- Cursor.prototype.count: short-circuit on the latched error; use the
index length when the chain head is still the original Source, else the
length of toArray. -/
def Cursor.count (fuel : Nat) (c : Cursor) (st : Store) :
    Option (Except String Nat × Cursor × List Op) :=
  match c._error with
  | some e => some (.error e, c, [])
  | none =>
    if sourceIsOriginal c.source then
      match c.index st with
      | (.error e, c1, ops) => some (.error e, c1, ops)
      | (.ok l, c1, ops) => some (.ok l.length, c1, ops)
    else
      match Cursor.toArray fuel c st with
      | none => none
      | some (.error e, c1, ops) => some (.error e, c1, ops)
      | some (.ok l, c1, ops) => some (.ok l.length, c1, ops)

/-- The iterator loop inside Cursor.prototype.each: the per-item callback
fires once per pull with exactly what the pull delivered, and iteration
continues only after a pull that was neither an error nor falsy. The
returned list is the sequence of callback invocations. -/
def eachLoopN : Nat → Store → Stage → Option (List Res × Stage × List Op)
  | 0, _, _ => none
  | Nat.succ f, st, s =>
    match nextN f st s with
    | none => none
    | some (.error e, s1, ops) => some ([.error e], s1, ops)
    | some (.ok item, s1, ops) =>
      if jsTruthy item then
        (eachLoopN f st s1).map (fun r => (.ok item :: r.1, r.2.1, ops ++ r.2.2))
      else some ([.ok item], s1, ops)

/-- Cursor.prototype.each: short-circuit the latched error to a single
callback invocation, otherwise run the iterator loop. -/
def Cursor.each (fuel : Nat) (c : Cursor) (st : Store) :
    Option (List Res × Cursor × List Op) :=
  match c._error with
  | some e => some ([.error e], c, [])
  | none =>
    (eachLoopN fuel st c.source).map (fun r => (r.1, { c with source := r.2.1 }, r.2.2))

/-- Proto.prototype.rewind as each stage implements or inherits it: Source
drops its cached list, Sort drops its buffer, Offset clears ready, Limit
resets its remaining count, and every wrapper forwards to its wrapped
stage. -/
def Stage.rewind : Stage → Stage
  | .src _ => .src none
  | .cond c s => .cond c s.rewind
  | .proj p s => .proj p s.rewind
  | .sort cmp _ e s => .sort cmp none e s.rewind
  | .offset n _ s => .offset n false s.rewind
  | .limit lim _ s => .limit lim lim s.rewind

/-- Cursor.prototype.rewind forwards to the chain head; the memo slots stay
as they are. -/
def Cursor.rewind (c : Cursor) : Cursor :=
  { c with source := c.source.rewind }

/-- Cursor.prototype.offset wraps the current chain head. -/
def Cursor.offset (c : Cursor) (n : Int) : Cursor :=
  { c with source := .offset n false c.source }

/-- Cursor.prototype.limit wraps the current chain head. -/
def Cursor.limit (c : Cursor) (n : Int) : Cursor :=
  { c with source := .limit n n c.source }

/-- Cursor.prototype.sort with a comparator function, which the order
compiler returns unchanged, wrapping the current chain head in a Sort
stage with an empty buffer. -/
def Cursor.sort (c : Cursor) (cmp : JSValue → JSValue → Int) : Cursor :=
  { c with source := .sort cmp none none c.source }

end Lib

/-! ## Helper lemmas about document field access -/

theorem jsGet_set_self (fl : List (String × JSValue)) (k : String) (v : JSValue) :
    jsGet (jsSet (.obj fl) k v) k = v := by
  induction fl with
  | nil => simp [jsSet, setField, jsGet, List.lookup]
  | cons kv rest ih =>
    obtain ⟨k0, v0⟩ := kv
    by_cases h : k0 = k
    · subst h
      simp [jsSet, setField, jsGet, List.lookup]
    · have hkk : (k == k0) = false := by
        simp only [beq_eq_false_iff_ne, ne_eq]
        exact fun e => h e.symm
      simp only [jsSet, setField, if_neg h] at ih ⊢
      simp only [jsGet, List.lookup, hkk] at ih ⊢
      exact ih

theorem jsGet_set_other (fl : List (String × JSValue)) (k k2 : String) (v : JSValue)
    (h : k2 ≠ k) : jsGet (jsSet (.obj fl) k v) k2 = jsGet (.obj fl) k2 := by
  have hk2 : (k2 == k) = false := by
    simp only [beq_eq_false_iff_ne, ne_eq]
    exact h
  induction fl with
  | nil => simp [jsSet, setField, jsGet, List.lookup, hk2]
  | cons kv rest ih =>
    obtain ⟨k0, v0⟩ := kv
    by_cases h0 : k0 = k
    · subst h0
      simp [jsSet, setField, jsGet, List.lookup, hk2]
    · simp only [jsSet, setField, if_neg h0] at ih ⊢
      by_cases h2 : k2 = k0
      · subst h2
        simp [jsGet, List.lookup]
      · have hkk : (k2 == k0) = false := by
          simp only [beq_eq_false_iff_ne, ne_eq]
          exact h2
        simp only [jsGet, List.lookup, hkk] at ih ⊢
        exact ih

/-! ## C10 -/

/-- C10: the in-memory index maps unescape over the stored keys and keeps
exactly the successful results in order, silently omitting every key whose
unescape yields an Error, so each listed identifier is a successful
unescape of a stored key and the index can list fewer identifiers than the
store holds items. -/
theorem mem_index_unescape_filter (storeKeys : List String)
    (unescape : String → Except String String) :
    Mem.index storeKeys unescape
        = (storeKeys.filterMap (fun k => (unescape k).toOption)).map Except.ok ∧
    (Mem.index storeKeys unescape).length ≤ storeKeys.length ∧
    Mem.index ["k"] (fun _ => .error "bad escape") = [] := by
  refine ⟨?_, ?_, rfl⟩
  · induction storeKeys with
    | nil => rfl
    | cons k ks ih =>
      cases h : unescape k with
      | error e => simpa [Mem.index, h, Except.toOption, List.filter_cons] using ih
      | ok v => simpa [Mem.index, h, Except.toOption, List.filter_cons] using ih
  · calc (Mem.index storeKeys unescape).length
        ≤ (storeKeys.map unescape).length := List.length_filter_le _ _
      _ = storeKeys.length := List.length_map _ _

/-! ## C5 -/

/-- C5: the predicate compiled from a null or absent condition or from the
zero-field map accepts every document, and the predicate compiled from a
declared-field map accepts a document exactly when every declared field of
the document loose-equals the declared value, the one-field fast path
included in the same characterization. -/
theorem core_condition_predicate (d : JSValue) (fields : List (String × JSValue)) :
    (∃ p, Core.parseConditoin (.val .null) = .ok p ∧ p d = true) ∧
    (∃ p, Core.parseConditoin (.val .undef) = .ok p ∧ p d = true) ∧
    (∃ p, Core.parseConditoin (.val (.obj [])) = .ok p ∧ p d = true) ∧
    (∃ p, Core.parseConditoin (.val (.obj fields)) = .ok p ∧
        (p d = true ↔ ∀ kv ∈ fields, looseEq (jsGet d kv.1) kv.2 = true)) := by
  refine ⟨⟨fun _ => true, rfl, rfl⟩, ⟨fun _ => true, rfl, rfl⟩, ⟨fun _ => true, rfl, rfl⟩, ?_⟩
  match fields with
  | [] => exact ⟨fun _ => true, rfl, by simp⟩
  | [(k, v)] => exact ⟨fun item => looseEq (jsGet item k) v, rfl, by simp⟩
  | (k1, v1) :: (k2, v2) :: rest =>
    refine ⟨_, rfl, ?_⟩
    simp [List.all_eq_true]

/-! ## C9 -/

/-- C9 counterexample: the falsy non-object conditions false, 0 and the
empty string do not fail the condition compiler; each is replaced by the
empty map and compiles to the match-all predicate. -/
theorem core_falsy_condition_compiles :
    Core.parseConditoin (.val (.bool false)) = .ok (fun _ => true) ∧
    Core.parseConditoin (.val (.num 0)) = .ok (fun _ => true) ∧
    Core.parseConditoin (.val (.str "")) = .ok (fun _ => true) :=
  ⟨rfl, rfl, rfl⟩

def JSValue.isPrimScalar : JSValue → Bool
  | .num _ => true
  | .str _ => true
  | .bool _ => true
  | _ => false

/-- C9 amended: a truthy condition of primitive type (a nonzero number, a
nonempty string, or true) fails the condition compiler with the error
message carrying the offending value. -/
theorem core_condition_scalar_fails (v : JSValue) (hT : jsTruthy v = true)
    (hP : v.isPrimScalar = true) :
    Core.parseConditoin (.val v) = .error ("unknown condition: " ++ jsToString v) := by
  cases v <;> simp_all [JSValue.isPrimScalar, Core.parseConditoin]

/-- Closed instance of the amended C9 statement at the string condition
xyz. -/
theorem core_condition_scalar_fails_witness :
    Core.parseConditoin (.val (.str "xyz"))
      = .error ("unknown condition: " ++ jsToString (.str "xyz")) :=
  core_condition_scalar_fails (.str "xyz") (by decide) (by decide)

/-! ## C7 -/

/-- C7 counterexample: the top-level key toString is not one of the six
operator names and its value null is not a map, yet the specification
compiles successfully, because the operator-table lookup finds the
inherited Object.prototype method and typeof null is the string object. -/
theorem update_proto_key_compiles :
    Upd.compiles (.val (.obj [("toString", .null)])) = true ∧
    Upd.updateOperators.contains "toString" = false :=
  ⟨rfl, by decide⟩

/-- C7 amended: compilation of an object specification succeeds exactly
when every top-level key has a truthy JavaScript lookup in the operator
table, that is one of the six operator names or a property inherited from
Object.prototype, and a value whose typeof is object, which includes null
and arrays besides plain maps; otherwise the first offending key names the
compile error. -/
theorem update_compile_characterization (fields : List (String × JSValue)) :
    (Upd.compiles (.val (.obj fields))
        = fields.all (fun kv => Upd.opeLookupTruthy kv.1 && Upd.jsTypeofObject kv.2)) ∧
    (∀ k, Upd.firstInvalidKey fields = some k →
        Upd.update (.val (.obj fields)) = .error ("invalid update operator: " ++ k)) := by
  have hred : Upd.update (.val (.obj fields))
      = (match Upd.firstInvalidKey fields with
         | some k => .error ("invalid update operator: " ++ k)
         | none => .ok (some (Upd.applyUpdate (.obj fields)))) := rfl
  have hc : Upd.compiles (.val (.obj fields)) = (Upd.firstInvalidKey fields).isNone := by
    unfold Upd.compiles
    rw [hred]
    cases Upd.firstInvalidKey fields <;> rfl
  constructor
  · rw [hc]
    cases hfind : fields.find? (fun kv => !(Upd.opeLookupTruthy kv.1 && Upd.jsTypeofObject kv.2)) with
    | none =>
      have hnone := List.find?_eq_none.mp hfind
      rw [show Upd.firstInvalidKey fields = none from by unfold Upd.firstInvalidKey; rw [hfind]; rfl]
      symm
      rw [show (none : Option String).isNone = true from rfl, List.all_eq_true]
      intro kv hmem
      simpa using hnone kv hmem
    | some kv =>
      have hmem := List.mem_of_find?_eq_some hfind
      have hprop := List.find?_some hfind
      rw [show Upd.firstInvalidKey fields = some kv.1 from by unfold Upd.firstInvalidKey; rw [hfind]; rfl]
      symm
      rw [show (some kv.1).isNone = false from rfl, Bool.eq_false_iff]
      intro hall
      rw [List.all_eq_true] at hall
      have := hall kv hmem
      simp [this] at hprop
  · intro k hk
    rw [hred, hk]

/-! ## C8 -/

theorem incFold_frame (incs : List (String × JSValue)) (fl : List (String × JSValue))
    (k : String) (h : k ∉ incs.map Prod.fst) :
    jsGet (incs.foldl Upd.incStep (.obj fl)) k = jsGet (.obj fl) k := by
  induction incs generalizing fl with
  | nil => rfl
  | cons kv rest ih =>
    simp only [List.map_cons, List.mem_cons, not_or] at h
    rw [List.foldl_cons]
    rw [show Upd.incStep (.obj fl) kv
        = .obj (setField fl kv.1 (.num (Upd.parseFloatOr0 (jsGet (.obj fl) kv.1)
            + Upd.parseFloatOr0 kv.2))) from rfl]
    rw [ih _ h.2]
    exact jsGet_set_other fl kv.1 k _ h.1

theorem incFold_hit (incs : List (String × JSValue)) (fl : List (String × JSValue))
    (hnd : (incs.map Prod.fst).Nodup) (kv : String × JSValue) (hm : kv ∈ incs) :
    jsGet (incs.foldl Upd.incStep (.obj fl)) kv.1
      = .num (Upd.parseFloatOr0 (jsGet (.obj fl) kv.1) + Upd.parseFloatOr0 kv.2) := by
  induction incs generalizing fl with
  | nil => cases hm
  | cons kv0 rest ih =>
    simp only [List.map_cons, List.nodup_cons] at hnd
    rw [List.foldl_cons]
    rw [show Upd.incStep (.obj fl) kv0
        = .obj (setField fl kv0.1 (.num (Upd.parseFloatOr0 (jsGet (.obj fl) kv0.1)
            + Upd.parseFloatOr0 kv0.2))) from rfl]
    rcases List.mem_cons.mp hm with hEq | hTail
    · subst hEq
      rw [incFold_frame rest _ kv.1 hnd.1]
      exact jsGet_set_self fl kv.1 _
    · have hne : kv.1 ≠ kv0.1 := by
        intro hcontra
        exact hnd.1 (hcontra ▸ List.mem_map_of_mem Prod.fst hTail)
      rw [ih _ hnd.2 hTail]
      rw [show jsGet (.obj (setField fl kv0.1 (.num (Upd.parseFloatOr0 (jsGet (.obj fl) kv0.1)
            + Upd.parseFloatOr0 kv0.2)))) kv.1 = jsGet (.obj fl) kv.1 from
          jsGet_set_other fl kv0.1 kv.1 _ hne]

/-- C8: applying a pure $inc update sets each incremented field to the sum
of its current value and the amount, both parsed as numbers with fallback
0 (so an absent or unparsable value counts as 0), leaves every other field
unchanged, and in particular incrementing the string field 3 by 2 stores
the number 5 while incrementing an absent field by 4 stores 4. -/
theorem update_inc_semantics (incs doc : List (String × JSValue))
    (hnd : (incs.map Prod.fst).Nodup) :
    (∀ kv ∈ incs,
      jsGet (Upd.applyUpdate (.obj [("$inc", .obj incs)]) (.obj doc)) kv.1
        = .num (Upd.parseFloatOr0 (jsGet (.obj doc) kv.1) + Upd.parseFloatOr0 kv.2)) ∧
    (∀ k, k ∉ incs.map Prod.fst →
      jsGet (Upd.applyUpdate (.obj [("$inc", .obj incs)]) (.obj doc)) k = jsGet (.obj doc) k) ∧
    Upd.applyUpdate (.obj [("$inc", .obj [("count", .num 2)])]) (.obj [("count", .str "3")])
      = .obj [("count", .num 5)] ∧
    Upd.applyUpdate (.obj [("$inc", .obj [("count", .num 4)])]) (.obj [])
      = .obj [("count", .num 4)] := by
  have hred : Upd.applyUpdate (.obj [("$inc", .obj incs)]) (.obj doc)
      = incs.foldl Upd.incStep (.obj doc) := rfl
  refine ⟨?_, ?_, ?_, ?_⟩
  · intro kv hm
    rw [hred]
    exact incFold_hit incs doc hnd kv hm
  · intro k hk
    rw [hred]
    exact incFold_frame incs doc k hk
  · have h3 : Upd.parseFloatOr0 (.str "3") = 3 := by
      simp [Upd.parseFloatOr0, parseFloatJS, jsToString, parseDecCore, takeDigits, digitsToNat,
        isSpaceChar]
    rw [show Upd.applyUpdate (.obj [("$inc", .obj [("count", .num 2)])]) (.obj [("count", .str "3")])
        = .obj [("count", .num (Upd.parseFloatOr0 (.str "3") + Upd.parseFloatOr0 (.num 2)))] from rfl]
    rw [h3, show Upd.parseFloatOr0 (.num 2) = 2 from rfl]
    norm_num
  · have h0 : Upd.parseFloatOr0 .undef = 0 := by
      simp [Upd.parseFloatOr0, parseFloatJS, jsToString, parseDecCore, takeDigits, isSpaceChar]
    rw [show Upd.applyUpdate (.obj [("$inc", .obj [("count", .num 4)])]) (.obj [])
        = .obj [("count", .num (Upd.parseFloatOr0 .undef + Upd.parseFloatOr0 (.num 4)))] from rfl]
    rw [h0, show Upd.parseFloatOr0 (.num 4) = 4 from rfl]
    norm_num

/-- Closed instance of the C8 statement at the two documented examples. -/
theorem update_inc_semantics_witness :
    jsGet (Upd.applyUpdate (.obj [("$inc", .obj [("count", .num 2)])])
        (.obj [("count", .str "3")])) "count"
      = .num (Upd.parseFloatOr0 (jsGet (.obj [("count", .str "3")]) "count")
          + Upd.parseFloatOr0 (.num 2)) ∧
    Upd.applyUpdate (.obj [("$inc", .obj [("count", .num 4)])]) (.obj [])
      = .obj [("count", .num 4)] :=
  ⟨(update_inc_semantics [("count", .num 2)] [("count", .str "3")] (by simp)).1
      ("count", .num 2) (by simp),
   (update_inc_semantics [("count", .num 4)] [] (by simp)).2.2.2⟩

/-! ## C3 -/

/-- A two-document store for the count divergence: both reads succeed, one
document matching the condition x equals 1, the other not. -/
def storeC3 : Store :=
  { index := .ok ["a", "b"],
    read := fun id =>
      if id = "a" then .ok (.obj [("x", .num 1)])
      else if id = "b" then .ok (.obj [("x", .num 2)])
      else .error "not found" }

/-- The legacy cursor find builds for the condition x equals 1; its
predicate is what parseConditoin compiles for that one-field map. -/
def curC3 : Core.OldCursor :=
  { condition := fun item => looseEq (jsGet item "x") (.num 1) }

/-- C3 at a concrete input on the legacy core cursor: find with the
condition x equals 1 compiles to the predicate of curC3, toArray returns
the single matching document, yet count reports 2, the bare length of the
key list, ignoring the condition. -/
theorem core_count_ignores_condition :
    Core.parseConditoin (.val (.obj [("x", .num 1)])) = .ok curC3.condition ∧
    (curC3.toArray storeC3).1 = (none, some [.obj [("x", .num 1)]]) ∧
    (curC3.count storeC3).1 = .ok 2 :=
  ⟨rfl, rfl, rfl⟩

/-! ## C4 -/

/-- A store whose second read fails, for the aborted-drain behavior. -/
def storeC4 : Store :=
  { index := .ok ["a", "b"],
    read := fun id =>
      if id = "a" then .ok (.obj [("x", .num 1)])
      else .error "storage failure" }

/-- An unconditioned legacy cursor, as find with no condition builds. -/
def curC4 : Core.OldCursor := { condition := fun _ => true }

/-- C4 at a concrete input on the legacy core cursor: when the second read
fails mid-drain, the toArray callback receives the partial buffer holding
the first document right next to the error, and the partial buffer is
memoized, so a second toArray call returns it as a successful result. -/
theorem core_toArray_keeps_partial_on_error :
    (curC4.toArray storeC4).1 = (some "storage failure", some [.obj [("x", .num 1)]]) ∧
    ((curC4.toArray storeC4).2.toArray storeC4).1 = (none, some [.obj [("x", .num 1)]]) :=
  ⟨rfl, rfl⟩

/-- The stage-chain cursor discards a failed drain: when the drain of the
chain errors, toArray hands the callback only the error, the collected
items are dropped and nothing is memoized, so the memo slot stays empty. -/
theorem lib_toArray_discards_on_error (fuel : Nat) (st : Store) (c : Lib.Cursor)
    (e : String) (c2 : Lib.Cursor) (ops : List Lib.Op)
    (h : Lib.Cursor.toArray fuel c st = some (.error e, c2, ops)) (h0 : c._toArray = none) :
    c2._toArray = none := by
  unfold Lib.Cursor.toArray at h
  cases hE : c._error with
  | some e0 =>
    rw [hE] at h
    simp only [Option.some.injEq, Prod.mk.injEq] at h
    rw [← h.2.1, h0]
  | none =>
    rw [hE, h0] at h
    cases hD : Lib.drainN fuel st c.source with
    | none => rw [hD] at h; cases h
    | some r =>
      obtain ⟨res, s1, ops1⟩ := r
      cases res with
      | error e1 =>
        rw [hD] at h
        simp only [Option.some.injEq, Prod.mk.injEq] at h
        rw [← h.2.1]
      | ok l =>
        rw [hD] at h
        simp only [Option.some.injEq, Prod.mk.injEq] at h
        cases h.1

/-! ## C1 -/

/-- C1: once toArray has completed successfully on a cursor, a second
toArray call without a rewind hands the callback a list equal to the first
result and performs no storage operations at all: the memoized result is
served and the stage chain, hence index and read, is never touched. -/
theorem lib_toArray_idempotent (fuel fuel2 : Nat) (st : Store) (c c2 : Lib.Cursor)
    (l : List JSValue) (ops : List Lib.Op)
    (h : Lib.Cursor.toArray fuel c st = some (.ok l, c2, ops)) :
    Lib.Cursor.toArray fuel2 c2 st = some (.ok l, c2, []) := by
  unfold Lib.Cursor.toArray at h ⊢
  cases hE : c._error with
  | some e0 => rw [hE] at h; simp at h
  | none =>
    rw [hE] at h
    cases hM : c._toArray with
    | some l0 =>
      rw [hM] at h
      simp only [Option.some.injEq, Prod.mk.injEq, Except.ok.injEq] at h
      obtain ⟨h1, h2, h3⟩ := h
      subst h1
      rw [← h2, hE, hM]
    | none =>
      rw [hM] at h
      cases hD : Lib.drainN fuel st c.source with
      | none => rw [hD] at h; cases h
      | some r =>
        obtain ⟨res, s1, ops1⟩ := r
        cases res with
        | error e1 => rw [hD] at h; simp at h
        | ok l1 =>
          rw [hD] at h
          simp only [Option.some.injEq, Prod.mk.injEq, Except.ok.injEq] at h
          obtain ⟨h1, h2, h3⟩ := h
          subst h1
          rw [← h2]

/-- A one-document store for the concrete cursor runs. -/
def demoDoc : JSValue := .obj [("x", .num 1)]

def storeC1 : Store :=
  { index := .ok ["a"],
    read := fun id => if id = "a" then .ok demoDoc else .error "not found" }

/-- A cursor with no condition and no projection, as find with no
arguments builds. -/
def curC1 : Lib.Cursor := Lib.mkCursor (.val .undef) (.val .undef)

/-- The cursor state after a successful full drain of storeC1. -/
def curC1After : Lib.Cursor :=
  { source := .src (some []), _toArray := some [demoDoc] }

/-- Closed instance of C1: the first toArray drains the store with one
index and one read call, the second returns the same list with no storage
operations. -/
theorem lib_toArray_idempotent_witness :
    Lib.Cursor.toArray 9 curC1 storeC1
      = some (.ok [demoDoc], curC1After, [.index, .read "a"]) ∧
    Lib.Cursor.toArray 3 curC1After storeC1 = some (.ok [demoDoc], curC1After, []) := by
  have h1 : Lib.Cursor.toArray 9 curC1 storeC1
      = some (.ok [demoDoc], curC1After, [.index, .read "a"]) := rfl
  exact ⟨h1, lib_toArray_idempotent 9 3 storeC1 curC1 curC1After [demoDoc] _ h1⟩

/-! ## C2 -/

/-- C2 counterexample: the condition 0 is neither null nor absent nor an
object nor a function, yet the cursor built from it latches no error, and
its toArray contacts the Storage Contract, performing an index and a read
call, and succeeds. -/
theorem lib_falsy_condition_reads_storage :
    (Lib.mkCursor (.val (.num 0)) (.val .undef))._error = none ∧
    Lib.Cursor.toArray 9 (Lib.mkCursor (.val (.num 0)) (.val .undef)) storeC1
      = some (.ok [demoDoc], curC1After, [.index, .read "a"]) :=
  ⟨rfl, rfl⟩

/-- The spec-modelled predicate compiler rejects every primitive value. -/
theorem whereSpec_scalar (v : JSValue) (hP : v.isPrimScalar = true) :
    Lib.whereSpec (.val v) = .error ("invalid condition: " ++ jsToString v) := by
  cases v <;> simp_all [JSValue.isPrimScalar, Lib.whereSpec]

/-- C2 amended: for every truthy primitive condition (a nonzero number, a
nonempty string, or true) the cursor latches the compile error, and every
terminal operation, toArray, count, each and index, hands its callback
exactly that error while performing no storage operations. -/
theorem lib_cursor_invalid_condition_latches (v : JSValue) (st : Store) (fuel : Nat)
    (hT : jsTruthy v = true) (hP : v.isPrimScalar = true) :
    (Lib.mkCursor (.val v) (.val .undef))._error
        = some ("invalid condition: " ++ jsToString v) ∧
    Lib.Cursor.toArray fuel (Lib.mkCursor (.val v) (.val .undef)) st
        = some (.error ("invalid condition: " ++ jsToString v),
            Lib.mkCursor (.val v) (.val .undef), []) ∧
    Lib.Cursor.count fuel (Lib.mkCursor (.val v) (.val .undef)) st
        = some (.error ("invalid condition: " ++ jsToString v),
            Lib.mkCursor (.val v) (.val .undef), []) ∧
    Lib.Cursor.each fuel (Lib.mkCursor (.val v) (.val .undef)) st
        = some ([.error ("invalid condition: " ++ jsToString v)],
            Lib.mkCursor (.val v) (.val .undef), []) ∧
    Lib.Cursor.index (Lib.mkCursor (.val v) (.val .undef)) st
        = (.error ("invalid condition: " ++ jsToString v),
            Lib.mkCursor (.val v) (.val .undef), []) := by
  have hm : Lib.mkCursor (.val v) (.val .undef)
      = { source := .src none, _error := some ("invalid condition: " ++ jsToString v) } := by
    unfold Lib.mkCursor
    simp only [CondArg.truthy, ProjArg.truthy, hT, whereSpec_scalar v hP,
      show jsTruthy .undef = false from rfl]
    rfl
  rw [hm]
  exact ⟨rfl, rfl, rfl, rfl, rfl⟩

/-- Closed instance of the amended C2 statement at the string condition
bad over the one-document store. -/
theorem lib_cursor_invalid_condition_latches_witness :
    (Lib.mkCursor (.val (.str "bad")) (.val .undef))._error
        = some ("invalid condition: " ++ jsToString (.str "bad")) ∧
    Lib.Cursor.toArray 5 (Lib.mkCursor (.val (.str "bad")) (.val .undef)) storeC1
        = some (.error ("invalid condition: " ++ jsToString (.str "bad")),
            Lib.mkCursor (.val (.str "bad")) (.val .undef), []) := by
  have h := lib_cursor_invalid_condition_latches (.str "bad") storeC1 5 (by decide) (by decide)
  exact ⟨h.1, h.2.1⟩

/-! ## C6: stage semantics of Offset and Limit -/

/-- A sort stage with its buffer already filled: the pure in-memory stage
that serves an ordered result set, which the pagination stages consume. -/
def sortB (cmp : JSValue → JSValue → Int) (s0 : Lib.Stage) (l : List JSValue) : Lib.Stage :=
  .sort cmp (some l) none s0

/-- A family of stages, indexed by the remaining items, that serves those
items in order with no storage operations whenever at least d fuel is
supplied: pulling at the empty list yields EOF, pulling at a cons yields
the head and moves to the tail. -/
def ListServe (st : Store) (U : List JSValue → Lib.Stage) (d : Nat) : Prop :=
  ∀ (l : List JSValue) (f : Nat), d ≤ f →
    Lib.nextN f st (U l)
      = some (match l with
        | [] => (.ok .undef, U [], [])
        | x :: xs => (.ok x, U xs, []))

/-- A buffered sort stage is a list server from one unit of fuel up. -/
theorem sortB_listServe (st : Store) (cmp : JSValue → JSValue → Int) (s0 : Lib.Stage) :
    ListServe st (sortB cmp s0) 1 := by
  intro l f hf
  cases f with
  | zero => omega
  | succ f =>
    cases l with
    | nil => rfl
    | cons x xs => rfl

/-- Wrapping a list server in a pass-through Offset stage, one that is
ready or has a non-positive count, gives a list server needing one more
unit of fuel. -/
theorem offset_pass_listServe (st : Store) (U : List JSValue → Lib.Stage) (d : Nat)
    (n : Int) (rdy : Bool) (hLS : ListServe st U d) (hpass : rdy = true ∨ n ≤ 0) :
    ListServe st (fun l => .offset n rdy (U l)) (d + 1) := by
  intro l f hf
  cases f with
  | zero => omega
  | succ f =>
    have hd : d ≤ f := by omega
    have hcond : (rdy || decide (n ≤ 0)) = true := by
      rcases hpass with h | h
      · simp [h]
      · simp [h]
    simp only [Lib.nextN, hcond, if_true]
    rw [hLS l f hd]
    cases l with
    | nil => rfl
    | cons x xs => rfl

/-- Draining a list server of truthy items returns exactly the served list
with no storage operations, given enough fuel. -/
theorem drainServe (st : Store) (U : List JSValue → Lib.Stage) (d : Nat)
    (hLS : ListServe st U d) (l : List JSValue) (hT : ∀ x ∈ l, jsTruthy x = true) :
    ∃ F, ∀ f, F ≤ f → Lib.drainN f st (U l) = some (.ok l, U [], []) := by
  induction l with
  | nil =>
    refine ⟨d + 1, ?_⟩
    intro f hf
    cases f with
    | zero => omega
    | succ f =>
      have hd : d ≤ f := by omega
      simp only [Lib.drainN]
      rw [hLS [] f hd]
      rfl
  | cons x xs ih =>
    obtain ⟨F0, hF0⟩ := ih (fun y hy => hT y (List.mem_cons_of_mem x hy))
    refine ⟨max (d + 1) (F0 + 1), ?_⟩
    intro f hf
    cases f with
    | zero => omega
    | succ f =>
      have hd : d ≤ f := by omega
      have hf0 : F0 ≤ f := by omega
      have hx : jsTruthy x = true := hT x (List.mem_cons_self x xs)
      simp only [Lib.drainN]
      rw [hLS (x :: xs) f hd]
      simp only [hx]
      rw [hF0 f hf0]
      rfl

/-- One-step unfolding of the drain at successor fuel. -/
theorem drainN_succ (f : Nat) (st : Store) (s0 : Lib.Stage) :
    Lib.drainN (f + 1) st s0
      = match Lib.nextN f st s0 with
        | none => none
        | some (.error e, s1, ops) => some (.error e, s1, ops)
        | some (.ok item, s1, ops) =>
          if jsTruthy item = false then some (.ok [], s1, ops)
          else
            match Lib.drainN f st s1 with
            | none => none
            | some (.error e, s2, ops2) => some (.error e, s2, ops ++ ops2)
            | some (.ok l, s2, ops2) => some (.ok (item :: l), s2, ops ++ ops2) := rfl

/-- One-step unfolding of a Limit pull at successor fuel. -/
theorem nextN_limit (f : Nat) (st : Store) (lim rest : Int) (s0 : Lib.Stage) :
    Lib.nextN (f + 1) st (.limit lim rest s0)
      = if rest > 0 then
          (Lib.nextN f st s0).map (fun r => (r.1, .limit lim (rest - 1) r.2.1, r.2.2))
        else some (.ok .undef, .limit lim (rest - 1) s0, []) := rfl

/-- One-step unfolding of an Offset pull at successor fuel. -/
theorem nextN_offset (f : Nat) (st : Store) (n : Int) (ready : Bool) (s0 : Lib.Stage) :
    Lib.nextN (f + 1) st (.offset n ready s0)
      = if (ready || decide (n ≤ 0)) = true then
          (Lib.nextN f st s0).map (fun r => (r.1, .offset n ready r.2.1, r.2.2))
        else
          (Lib.skipN f st n s0).map (fun r => (r.1, .offset n r.2.2.2 r.2.1, r.2.2.1)) := rfl

/-- One-step unfolding of the skip loop at successor fuel. -/
theorem skipN_succ (f : Nat) (st : Store) (rest : Int) (s0 : Lib.Stage) :
    Lib.skipN (f + 1) st rest s0
      = match Lib.nextN f st s0 with
        | none => none
        | some (.error e, s1, ops) => some (.error e, s1, ops, false)
        | some (.ok item, s1, ops) =>
          if jsTruthy item = false then some (.ok .undef, s1, ops, false)
          else if rest - 1 > 0 then
            (Lib.skipN f st (rest - 1) s1).map (fun r => (r.1, r.2.1, ops ++ r.2.2.1, r.2.2.2))
          else
            match Lib.nextN f st s1 with
            | none => none
            | some (r, s2, ops2) => some (r, s2, ops ++ ops2, true) := rfl

/-- Draining a Limit stage over a list server of truthy items returns the
first rest items (all of them when fewer remain) with no storage
operations. -/
theorem drainLimitServe (st : Store) (U : List JSValue → Lib.Stage) (d : Nat)
    (hLS : ListServe st U d) (l : List JSValue) (hT : ∀ x ∈ l, jsTruthy x = true)
    (lim : Int) :
    ∀ rest : Int, ∃ F, ∀ f, F ≤ f → ∃ s2,
      Lib.drainN f st (.limit lim rest (U l)) = some (.ok (l.take rest.toNat), s2, []) := by
  induction l with
  | nil =>
    intro rest
    refine ⟨d + 3, ?_⟩
    intro f hf
    cases f with
    | zero => omega
    | succ f =>
    cases f with
    | zero => omega
    | succ f2 =>
      refine ⟨.limit lim (rest - 1) (U []), ?_⟩
      rw [drainN_succ, nextN_limit]
      by_cases hrest : rest > 0
      · rw [if_pos hrest, hLS [] f2 (by omega), List.take_nil]
        rfl
      · rw [if_neg hrest, List.take_nil]
        rfl
  | cons x xs ih =>
    intro rest
    by_cases hrest : rest > 0
    · obtain ⟨F0, hF0⟩ := ih (fun y hy => hT y (List.mem_cons_of_mem x hy)) (rest - 1)
      refine ⟨max (d + 3) (F0 + 1), ?_⟩
      intro f hf
      cases f with
      | zero => omega
      | succ f =>
      cases f with
      | zero => omega
      | succ f2 =>
        obtain ⟨s2, hs2⟩ := hF0 (f2 + 1) (by omega)
        refine ⟨s2, ?_⟩
        have hx : jsTruthy x = true := hT x (List.mem_cons_self x xs)
        rw [drainN_succ, nextN_limit, if_pos hrest, hLS (x :: xs) f2 (by omega)]
        simp only [Option.map_some']
        simp only [hx]
        rw [hs2]
        rw [show rest.toNat = (rest - 1).toNat + 1 from by omega, List.take_succ_cons]
        rfl
    · refine ⟨d + 3, ?_⟩
      intro f hf
      cases f with
      | zero => omega
      | succ f =>
      cases f with
      | zero => omega
      | succ f2 =>
        refine ⟨.limit lim (rest - 1) (U (x :: xs)), ?_⟩
        rw [drainN_succ, nextN_limit, if_neg hrest]
        rw [show rest.toNat = 0 from by omega]
        rfl

/-- The skip loop of an Offset stage over a list server of truthy items:
skipping k plus one items either hits EOF with the ready flag still clear
when fewer items remain, or consumes exactly k plus one items, reports
ready, and delivers the next pull. -/
theorem skipServe (st : Store) (U : List JSValue → Lib.Stage) (d : Nat)
    (hLS : ListServe st U d) :
    ∀ (k : Nat) (l : List JSValue), (∀ x ∈ l, jsTruthy x = true) →
      ∃ F, ∀ f, F ≤ f →
        Lib.skipN f st ((k : Int) + 1) (U l)
          = some (match l.drop k with
            | [] => (.ok .undef, U [], [], false)
            | [x] => (.ok .undef, U [], [], true)
            | x :: y :: r => (.ok y, U r, [], true)) := by
  intro k
  induction k with
  | zero =>
    intro l hT
    refine ⟨d + 2, ?_⟩
    intro f hf
    cases f with
    | zero => omega
    | succ f =>
      cases l with
      | nil =>
        rw [skipN_succ, hLS [] f (by omega)]
        rfl
      | cons x xs =>
        have hx : jsTruthy x = true := hT x (List.mem_cons_self x xs)
        rw [skipN_succ, hLS (x :: xs) f (by omega)]
        simp only [hx, Nat.cast_zero]
        rw [if_neg (show ¬((0 : Int) + 1 - 1 > 0) from by omega)]
        rw [hLS xs f (by omega)]
        cases xs with
        | nil => rfl
        | cons y r => rfl
  | succ k ihk =>
    intro l hT
    cases l with
    | nil =>
      refine ⟨d + 2, ?_⟩
      intro f hf
      cases f with
      | zero => omega
      | succ f =>
        rw [skipN_succ, hLS [] f (by omega)]
        rfl
    | cons x xs =>
      obtain ⟨F0, hF0⟩ := ihk xs (fun y hy => hT y (List.mem_cons_of_mem x hy))
      refine ⟨max (d + 2) (F0 + 1), ?_⟩
      intro f hf
      cases f with
      | zero => omega
      | succ f =>
        have hx : jsTruthy x = true := hT x (List.mem_cons_self x xs)
        rw [skipN_succ, hLS (x :: xs) f (by omega)]
        simp only [hx, Nat.cast_succ]
        rw [if_pos (show ((k : Int) + 1 + 1 - 1 > 0) from by omega)]
        rw [show ((k : Int) + 1 + 1 - 1) = (k : Int) + 1 from by ring]
        rw [hF0 f (by omega)]
        rw [List.drop_succ_cons]
        cases hdrop : xs.drop k with
        | nil => rfl
        | cons y r =>
          cases r with
          | nil => rfl
          | cons z r2 => rfl

/-- The first pull of an unready Offset stage with positive count over a
list server: fewer remaining items than the count give EOF with the ready
flag still clear, exactly one more gives EOF after consuming everything,
and otherwise the item after the skipped prefix is delivered with the
ready flag set. -/
theorem offsetFirstPull (st : Store) (U : List JSValue → Lib.Stage) (d : Nat)
    (hLS : ListServe st U d) (k : Nat) (l : List JSValue)
    (hT : ∀ x ∈ l, jsTruthy x = true) :
    ∃ F, ∀ f, F ≤ f →
      Lib.nextN f st (.offset ((k : Int) + 1) false (U l))
        = some (match l.drop k with
          | [] => (.ok .undef, .offset ((k : Int) + 1) false (U []), [])
          | [x] => (.ok .undef, .offset ((k : Int) + 1) true (U []), [])
          | x :: y :: r => (.ok y, .offset ((k : Int) + 1) true (U r), [])) := by
  obtain ⟨F0, hF0⟩ := skipServe st U d hLS k l hT
  refine ⟨F0 + 1, ?_⟩
  intro f hf
  cases f with
  | zero => omega
  | succ f =>
    rw [nextN_offset]
    rw [if_neg (show ¬((false || decide ((k : Int) + 1 ≤ 0)) = true) from by
      simp only [Bool.false_or, decide_eq_true_eq]
      omega)]
    rw [hF0 f (by omega)]
    cases hdrop : l.drop k with
    | nil => rfl
    | cons y r =>
      cases r with
      | nil => rfl
      | cons z r2 => rfl

/-- Draining an unready Offset stage over a buffered sorted list of truthy
items yields exactly the list without its first n items, with no storage
operations; in particular an offset at or beyond the length yields the
empty sequence without error. -/
theorem drainOffsetServe (st : Store) (cmp : JSValue → JSValue → Int) (s0 : Lib.Stage)
    (n : Nat) (l : List JSValue) (hT : ∀ x ∈ l, jsTruthy x = true) :
    ∃ F, ∀ f, F ≤ f → ∃ s2,
      Lib.drainN f st (.offset (n : Int) false (sortB cmp s0 l))
        = some (.ok (l.drop n), s2, []) := by
  cases n with
  | zero =>
    have hLS' := offset_pass_listServe st (sortB cmp s0) 1 ((0 : Nat) : Int) false
      (sortB_listServe st cmp s0) (Or.inr (by simp))
    obtain ⟨F, hF⟩ := drainServe st _ 2 hLS' l hT
    refine ⟨F, ?_⟩
    intro f hf
    refine ⟨.offset ((0 : Nat) : Int) false (sortB cmp s0 []), ?_⟩
    have := hF f hf
    simpa using this
  | succ k =>
    obtain ⟨F0, hF0⟩ := offsetFirstPull st (sortB cmp s0) 1 (sortB_listServe st cmp s0) k l hT
    have hLS2 := offset_pass_listServe st (sortB cmp s0) 1 ((k : Int) + 1) true
      (sortB_listServe st cmp s0) (Or.inl rfl)
    cases hdrop : l.drop k with
    | nil =>
      refine ⟨F0 + 1, ?_⟩
      intro f hf
      cases f with
      | zero => omega
      | succ f =>
        have hd1 : l.drop (k + 1) = [] := by
          rw [← List.drop_drop 1 k l, hdrop]
          rfl
        refine ⟨.offset ((k : Int) + 1) false (sortB cmp s0 []), ?_⟩
        rw [Nat.cast_succ, drainN_succ, hF0 f (by omega), hdrop, hd1]
        rfl
    | cons y rs =>
      cases rs with
      | nil =>
        refine ⟨F0 + 1, ?_⟩
        intro f hf
        cases f with
        | zero => omega
        | succ f =>
          have hd1 : l.drop (k + 1) = [] := by
            rw [← List.drop_drop 1 k l, hdrop]
            rfl
          refine ⟨.offset ((k : Int) + 1) true (sortB cmp s0 []), ?_⟩
          rw [Nat.cast_succ, drainN_succ, hF0 f (by omega), hdrop, hd1]
          rfl
      | cons z rr =>
        have hz : jsTruthy z = true := by
          apply hT
          apply List.mem_of_mem_drop (n := k)
          rw [hdrop]
          exact List.mem_cons_of_mem y (List.mem_cons_self z rr)
        have hTrr : ∀ x ∈ rr, jsTruthy x = true := by
          intro x hx
          apply hT
          apply List.mem_of_mem_drop (n := k)
          rw [hdrop]
          exact List.mem_cons_of_mem y (List.mem_cons_of_mem z hx)
        obtain ⟨F1, hF1⟩ := drainServe st _ 2 hLS2 rr hTrr
        refine ⟨max (F0 + 1) (F1 + 1), ?_⟩
        intro f hf
        cases f with
        | zero => omega
        | succ f =>
          have hd1 : l.drop (k + 1) = z :: rr := by
            rw [← List.drop_drop 1 k l, hdrop]
            rfl
          refine ⟨.offset ((k : Int) + 1) true (sortB cmp s0 []), ?_⟩
          rw [Nat.cast_succ, drainN_succ, hF0 f (by omega), hdrop, hd1]
          simp only [hz]
          have h1 := hF1 f (by omega)
          simp only [] at h1
          rw [h1]
          rfl

/-- Draining a Limit stage stacked on an unready Offset stage over a
buffered sorted list of truthy items yields the first m items after the
first n are skipped, with no storage operations. -/
theorem drainLimitOffsetServe (st : Store) (cmp : JSValue → JSValue → Int) (s0 : Lib.Stage)
    (n m : Nat) (l : List JSValue) (hT : ∀ x ∈ l, jsTruthy x = true) :
    ∃ F, ∀ f, F ≤ f → ∃ s2,
      Lib.drainN f st (.limit (m : Int) (m : Int) (.offset (n : Int) false (sortB cmp s0 l)))
        = some (.ok ((l.drop n).take m), s2, []) := by
  cases m with
  | zero =>
    refine ⟨3, ?_⟩
    intro f hf
    cases f with
    | zero => omega
    | succ f =>
    cases f with
    | zero => omega
    | succ f2 =>
      refine ⟨.limit ((0 : Nat) : Int) (((0 : Nat) : Int) - 1)
        (.offset (n : Int) false (sortB cmp s0 l)), ?_⟩
      rw [drainN_succ, nextN_limit, if_neg (show ¬(((0 : Nat) : Int) > 0) from by omega)]
      rw [List.take_zero]
      rfl
  | succ m1 =>
    cases n with
    | zero =>
      have hLS' := offset_pass_listServe st (sortB cmp s0) 1 ((0 : Nat) : Int) false
        (sortB_listServe st cmp s0) (Or.inr (by simp))
      obtain ⟨F, hF⟩ := drainLimitServe st _ 2 hLS' l hT ((m1 + 1 : Nat) : Int) ((m1 + 1 : Nat) : Int)
      refine ⟨F, ?_⟩
      intro f hf
      obtain ⟨s2, hs2⟩ := hF f hf
      refine ⟨s2, ?_⟩
      rw [hs2, List.drop_zero, Int.toNat_natCast]
    | succ k =>
      obtain ⟨F0, hF0⟩ := offsetFirstPull st (sortB cmp s0) 1 (sortB_listServe st cmp s0) k l hT
      have hLS2 := offset_pass_listServe st (sortB cmp s0) 1 ((k : Int) + 1) true
        (sortB_listServe st cmp s0) (Or.inl rfl)
      cases hdrop : l.drop k with
      | nil =>
        refine ⟨F0 + 2, ?_⟩
        intro f hf
        cases f with
        | zero => omega
        | succ f =>
        cases f with
        | zero => omega
        | succ f2 =>
          have hd1 : l.drop (k + 1) = [] := by
            rw [← List.drop_drop 1 k l, hdrop]
            rfl
          refine ⟨.limit ((m1 : Int) + 1) (((m1 : Int) + 1) - 1)
            (.offset ((k : Int) + 1) false (sortB cmp s0 [])), ?_⟩
          rw [drainN_succ, nextN_limit]
          push_cast
          rw [if_pos (show ((m1 : Int) + 1 > 0) from by omega)]
          rw [hF0 f2 (by omega), hdrop, hd1]
          rfl
      | cons y rs =>
        cases rs with
        | nil =>
          refine ⟨F0 + 2, ?_⟩
          intro f hf
          cases f with
          | zero => omega
          | succ f =>
          cases f with
          | zero => omega
          | succ f2 =>
            have hd1 : l.drop (k + 1) = [] := by
              rw [← List.drop_drop 1 k l, hdrop]
              rfl
            refine ⟨.limit ((m1 : Int) + 1) (((m1 : Int) + 1) - 1)
              (.offset ((k : Int) + 1) true (sortB cmp s0 [])), ?_⟩
            rw [drainN_succ, nextN_limit]
            push_cast
            rw [if_pos (show ((m1 : Int) + 1 > 0) from by omega)]
            rw [hF0 f2 (by omega), hdrop, hd1]
            rfl
        | cons z rr =>
          have hz : jsTruthy z = true := by
            apply hT
            apply List.mem_of_mem_drop (n := k)
            rw [hdrop]
            exact List.mem_cons_of_mem y (List.mem_cons_self z rr)
          have hTrr : ∀ x ∈ rr, jsTruthy x = true := by
            intro x hx
            apply hT
            apply List.mem_of_mem_drop (n := k)
            rw [hdrop]
            exact List.mem_cons_of_mem y (List.mem_cons_of_mem z hx)
          obtain ⟨F1, hF1⟩ := drainLimitServe st _ 2 hLS2 rr hTrr
            ((m1 + 1 : Nat) : Int) (((m1 + 1 : Nat) : Int) - 1)
          refine ⟨max (F0 + 2) (F1 + 1), ?_⟩
          intro f hf
          cases f with
          | zero => omega
          | succ f =>
          cases f with
          | zero => omega
          | succ f2 =>
            have hd1 : l.drop (k + 1) = z :: rr := by
              rw [← List.drop_drop 1 k l, hdrop]
              rfl
            obtain ⟨s2, hs2⟩ := hF1 (f2 + 1) (by omega)
            push_cast at hs2
            refine ⟨s2, ?_⟩
            rw [drainN_succ, nextN_limit]
            push_cast
            rw [if_pos (show ((m1 : Int) + 1 > 0) from by omega)]
            rw [hF0 f2 (by omega), hdrop, hd1]
            simp only [Option.map_some']
            simp only [hz]
            rw [hs2]
            rw [show ((m1 : Int) + 1 - 1).toNat = m1 from by omega]
            rw [show ((z :: rr).take (m1 + 1)) = z :: rr.take m1 from List.take_succ_cons]
            rfl

/-- C6: over a buffered ordered result set of truthy documents, the Offset
stage skips exactly the first n items and passes the remainder through,
yielding the empty sequence without error when at most n items exist; the
Limit stage serves at most m items and, once its count is exhausted,
reports EOF without pulling its wrapped stage at all; and stacking limit m
over offset n yields exactly the m items after the first n, so offset 2
with limit 1 on a five-item set yields exactly the third item. -/
theorem lib_offset_limit_stages (st : Store) (cmp : JSValue → JSValue → Int) (s0 : Lib.Stage)
    (l : List JSValue) (n m : Nat) (hT : ∀ x ∈ l, jsTruthy x = true) :
    (∃ F, ∀ f, F ≤ f → ∃ s2,
      Lib.drainN f st (.offset (n : Int) false (sortB cmp s0 l))
        = some (.ok (l.drop n), s2, [])) ∧
    (∃ F, ∀ f, F ≤ f → ∃ s2,
      Lib.drainN f st (.limit (m : Int) (m : Int) (sortB cmp s0 l))
        = some (.ok (l.take m), s2, [])) ∧
    (∀ (up : Lib.Stage) (lim rest : Int) (f : Nat), rest ≤ 0 →
      Lib.nextN (f + 1) st (.limit lim rest up)
        = some (.ok .undef, .limit lim (rest - 1) up, [])) ∧
    (∃ F, ∀ f, F ≤ f → ∃ s2,
      Lib.drainN f st (.limit (m : Int) (m : Int) (.offset (n : Int) false (sortB cmp s0 l)))
        = some (.ok ((l.drop n).take m), s2, [])) := by
  refine ⟨drainOffsetServe st cmp s0 n l hT, ?_, ?_, drainLimitOffsetServe st cmp s0 n m l hT⟩
  · obtain ⟨F, hF⟩ := drainLimitServe st (sortB cmp s0) 1 (sortB_listServe st cmp s0) l hT
      ((m : Nat) : Int) ((m : Nat) : Int)
    refine ⟨F, ?_⟩
    intro f hf
    obtain ⟨s2, hs2⟩ := hF f hf
    exact ⟨s2, by rw [hs2, Int.toNat_natCast]⟩
  · intro up lim rest f h
    rw [nextN_limit, if_neg (by omega)]

/-- Closed instance of C6: offset 2 and limit 1 over a five-item ordered
result set return exactly the third item. -/
theorem lib_offset_limit_stages_witness :
    ∃ F, ∀ f, F ≤ f → ∃ s2,
      Lib.drainN f storeC1 (.limit ((1 : Nat) : Int) ((1 : Nat) : Int)
        (.offset ((2 : Nat) : Int) false (sortB (fun _ _ => 0) (.src none)
          [.obj [("i", .num 1)], .obj [("i", .num 2)], .obj [("i", .num 3)],
           .obj [("i", .num 4)], .obj [("i", .num 5)]])))
      = some (.ok [.obj [("i", .num 3)]], s2, []) := by
  have hT : ∀ x ∈ [JSValue.obj [("i", .num 1)], JSValue.obj [("i", .num 2)],
      JSValue.obj [("i", .num 3)], JSValue.obj [("i", .num 4)], JSValue.obj [("i", .num 5)]],
      jsTruthy x = true := by
    intro x hx
    simp only [List.mem_cons, List.not_mem_nil, or_false] at hx
    rcases hx with h | h | h | h | h <;> subst h <;> rfl
  exact (lib_offset_limit_stages storeC1 (fun _ _ => 0) (.src none)
    [.obj [("i", .num 1)], .obj [("i", .num 2)], .obj [("i", .num 3)],
     .obj [("i", .num 4)], .obj [("i", .num 5)]] 2 1 hT).2.2.2

/-! ## The count fast path of the stage-chain cursor -/

/-- A successful drain of a Source stage with a cached identifier list
returns exactly one document per cached identifier, provided the store
only ever serves truthy documents. -/
theorem drain_src_length (st : Store)
    (hdocs : ∀ id d, st.read id = .ok d → jsTruthy d = true) :
    ∀ (f : Nat) (ids : List String) (l : List JSValue) (s2 : Lib.Stage) (ops : List Lib.Op),
      Lib.drainN f st (.src (some ids)) = some (.ok l, s2, ops) → l.length = ids.length := by
  intro f
  induction f with
  | zero => intro ids l s2 ops h; cases h
  | succ f ih =>
    intro ids l s2 ops h
    cases f with
    | zero => cases h
    | succ f2 =>
      cases ids with
      | nil =>
        rw [show Lib.drainN (f2 + 1 + 1) st (.src (some []))
            = some (.ok [], .src (some []), []) from rfl] at h
        simp only [Option.some.injEq, Prod.mk.injEq, Except.ok.injEq] at h
        rw [← h.1]
        rfl
      | cons id rest =>
        rw [drainN_succ] at h
        cases hr : st.read id with
        | error e =>
          rw [show Lib.nextN (f2 + 1) st (.src (some (id :: rest)))
              = some (.error e, .src (some rest), [.read id]) from by
            rw [show Lib.nextN (f2 + 1) st (.src (some (id :: rest)))
                = (match st.read id with
                   | .error e => some (.error e, .src (some rest), [.read id])
                   | .ok item => some (.ok item, .src (some rest), [.read id])) from rfl, hr]] at h
          simp at h
        | ok item =>
          rw [show Lib.nextN (f2 + 1) st (.src (some (id :: rest)))
              = some (.ok item, .src (some rest), [.read id]) from by
            rw [show Lib.nextN (f2 + 1) st (.src (some (id :: rest)))
                = (match st.read id with
                   | .error e => some (.error e, .src (some rest), [.read id])
                   | .ok item => some (.ok item, .src (some rest), [.read id])) from rfl, hr]] at h
          simp only [hdocs id item hr] at h
          rw [if_neg (show ¬(true = false) from by simp)] at h
          cases hd : Lib.drainN (f2 + 1) st (.src (some rest)) with
          | none => rw [hd] at h; cases h
          | some r =>
            obtain ⟨res2, s3, ops3⟩ := r
            cases res2 with
            | error e => rw [hd] at h; simp at h
            | ok l2 =>
              rw [hd] at h
              simp only [Option.some.injEq, Prod.mk.injEq, Except.ok.injEq] at h
              rw [← h.1]
              simp only [List.length_cons]
              rw [ih rest l2 s3 ops3 hd]

/-- A successful drain of a fresh Source stage reveals a successful index
listing and returns exactly one document per listed identifier. -/
theorem drain_src_none_length (st : Store)
    (hdocs : ∀ id d, st.read id = .ok d → jsTruthy d = true)
    (f : Nat) (l : List JSValue) (s2 : Lib.Stage) (ops : List Lib.Op)
    (h : Lib.drainN f st (.src none) = some (.ok l, s2, ops)) :
    ∃ ids, st.index = .ok ids ∧ l.length = ids.length := by
  cases f with
  | zero => cases h
  | succ f =>
    cases f with
    | zero => cases h
    | succ f2 =>
      cases hidx : st.index with
      | error e =>
        rw [drainN_succ] at h
        rw [show Lib.nextN (f2 + 1) st (.src none)
            = some (.error e, .src none, [.index]) from by
          rw [show Lib.nextN (f2 + 1) st (.src none)
              = (match st.index with
                 | .error e => some (.error e, .src none, [.index])
                 | .ok ids =>
                   (Lib.nextN f2 st (.src (some ids))).map
                     (fun r => (r.1, r.2.1, .index :: r.2.2))) from rfl, hidx]] at h
        simp at h
      | ok ids =>
        refine ⟨ids, rfl, ?_⟩
        rw [drainN_succ] at h
        rw [show Lib.nextN (f2 + 1) st (.src none)
            = (Lib.nextN f2 st (.src (some ids))).map
                (fun r => (r.1, r.2.1, .index :: r.2.2)) from by
          rw [show Lib.nextN (f2 + 1) st (.src none)
              = (match st.index with
                 | .error e => some (.error e, .src none, [.index])
                 | .ok ids =>
                   (Lib.nextN f2 st (.src (some ids))).map
                     (fun r => (r.1, r.2.1, .index :: r.2.2))) from rfl, hidx]] at h
        cases f2 with
        | zero => cases h
        | succ f3 =>
          cases ids with
          | nil =>
            rw [show Lib.nextN (f3 + 1) st (.src (some []))
                = some (.ok .undef, .src (some []), []) from rfl] at h
            simp only [Option.map_some'] at h
            simp only [show jsTruthy JSValue.undef = false from rfl, if_true] at h
            simp only [Option.some.injEq, Prod.mk.injEq, Except.ok.injEq] at h
            rw [← h.1]
            rfl
          | cons id rest =>
            cases hr : st.read id with
            | error e =>
              rw [show Lib.nextN (f3 + 1) st (.src (some (id :: rest)))
                  = some (.error e, .src (some rest), [.read id]) from by
                rw [show Lib.nextN (f3 + 1) st (.src (some (id :: rest)))
                    = (match st.read id with
                       | .error e => some (.error e, .src (some rest), [.read id])
                       | .ok item => some (.ok item, .src (some rest), [.read id])) from rfl,
                  hr]] at h
              simp at h
            | ok item =>
              rw [show Lib.nextN (f3 + 1) st (.src (some (id :: rest)))
                  = some (.ok item, .src (some rest), [.read id]) from by
                rw [show Lib.nextN (f3 + 1) st (.src (some (id :: rest)))
                    = (match st.read id with
                       | .error e => some (.error e, .src (some rest), [.read id])
                       | .ok item => some (.ok item, .src (some rest), [.read id])) from rfl,
                  hr]] at h
              simp only [Option.map_some'] at h
              simp only [hdocs id item hr] at h
              rw [if_neg (show ¬(true = false) from by simp)] at h
              cases hd : Lib.drainN (f3 + 1 + 1) st (.src (some rest)) with
              | none => rw [hd] at h; cases h
              | some r =>
                obtain ⟨res2, s3, ops3⟩ := r
                cases res2 with
                | error e => rw [hd] at h; simp at h
                | ok l2 =>
                  rw [hd] at h
                  simp only [Option.some.injEq, Prod.mk.injEq, Except.ok.injEq] at h
                  rw [← h.1]
                  simp only [List.length_cons]
                  rw [drain_src_length st hdocs (f3 + 1 + 1) rest l2 s3 ops3 hd]

/-- A cursor built by find, that is with no projection, has empty memo
slots and a chain that is either the bare Source or a single Condition
stage over it. -/
theorem mkCursor_shape (cond : CondArg) :
    (Lib.mkCursor cond (.val .undef))._index = none ∧
    (Lib.mkCursor cond (.val .undef))._toArray = none ∧
    ((Lib.mkCursor cond (.val .undef)).source = .src none ∨
      ∃ p, (Lib.mkCursor cond (.val .undef)).source = .cond (.fn p) (.src none)) := by
  unfold Lib.mkCursor
  simp only [show ProjArg.truthy (.val .undef) = false from rfl, Bool.false_eq_true, if_false]
  by_cases ht : cond.truthy = true
  · simp only [ht, if_true]
    cases hw : Lib.whereSpec cond with
    | error e => exact ⟨rfl, rfl, Or.inl rfl⟩
    | ok p => exact ⟨rfl, rfl, Or.inr ⟨p, rfl⟩⟩
  · simp only [ht, if_false]
    exact ⟨rfl, rfl, Or.inl rfl⟩

/-- The stage-chain count agrees with toArray on the cursor find builds:
whenever toArray succeeds with a list, count reports exactly its length,
on the index fast path when no Condition stage was installed and through
toArray itself otherwise, so the fast path is a pure optimization. -/
theorem lib_count_eq_toArray_length (st : Store) (cond : CondArg) (fuel : Nat)
    (l : List JSValue) (c2 : Lib.Cursor) (ops : List Lib.Op)
    (hdocs : ∀ id d, st.read id = .ok d → jsTruthy d = true)
    (h : Lib.Cursor.toArray fuel (Lib.mkCursor cond (.val .undef)) st = some (.ok l, c2, ops)) :
    ∃ c3 ops2, Lib.Cursor.count fuel (Lib.mkCursor cond (.val .undef)) st
      = some (.ok l.length, c3, ops2) := by
  obtain ⟨hidx, htoa, hshape⟩ := mkCursor_shape cond
  unfold Lib.Cursor.toArray at h
  cases hE : (Lib.mkCursor cond (.val .undef))._error with
  | some e => rw [hE] at h; simp at h
  | none =>
    rw [hE, htoa] at h
    cases hD : Lib.drainN fuel st (Lib.mkCursor cond (.val .undef)).source with
    | none => rw [hD] at h; cases h
    | some r =>
      obtain ⟨res, s1, ops1⟩ := r
      cases res with
      | error e => rw [hD] at h; simp at h
      | ok l1 =>
        rw [hD] at h
        simp only [Option.some.injEq, Prod.mk.injEq, Except.ok.injEq] at h
        rcases hshape with hs | ⟨p, hs⟩
        · rw [hs] at hD
          obtain ⟨ids, hsti, hlen⟩ :=
            drain_src_none_length st hdocs fuel l1 s1 ops1 hD
          refine ⟨{ Lib.mkCursor cond (.val .undef) with _index := some ids },
            [.index], ?_⟩
          unfold Lib.Cursor.count
          unfold Lib.Cursor.index
          simp only [hE, hidx, htoa, hs, hsti]
          rw [show l.length = ids.length from by rw [← h.1, hlen]]
          rfl
        · rw [hs] at hD
          refine ⟨{ Lib.mkCursor cond (.val .undef) with source := s1, _toArray := some l1 },
            ops1, ?_⟩
          unfold Lib.Cursor.count
          unfold Lib.Cursor.toArray
          simp only [hE, hidx, htoa, hs, hD]
          rw [show l.length = l1.length from by rw [← h.1]]
          rfl
